import Mathlib

/-
Verification of the FireCrawl document loader
(backend/open_webui/retrieval/loaders/firecrawl.py).

The loader is embedded shallowly: strings are lists of characters, JSON
bodies of service responses are explicit data, and the HTTP transport is
abstracted away by passing the service's (JSON-level) responses as inputs.
Time is modelled by tagging each poll iteration with the elapsed time the
loop would observe at its deadline check.
-/

set_option linter.unusedVariables false

abbrev Str := List Char

/-- Models Python str.startswith: strStarts s p is true when p is a prefix of s. -/
def strStarts : Str → Str → Bool
  | _, [] => true
  | [], _ :: _ => false
  | c :: s, d :: p => c == d && strStarts s p

/-- Models the Python substring test (sub in s). -/
def strContains (s sub : Str) : Bool :=
  strStarts s sub ||
    match s with
    | [] => false
    | _ :: rest => strContains rest sub

/-- Models Python str.replace old new on s: every non-overlapping occurrence of
old in s, scanned left to right, is replaced by new (the loader only calls it
with a non-empty old). -/
def pyReplace (old new : Str) (s : Str) : Str :=
  if h : old ≠ [] ∧ strStarts s old = true then
    new ++ pyReplace old new (s.drop old.length)
  else
    match s with
    | [] => []
    | c :: rest => c :: pyReplace old new rest
termination_by s.length
decreasing_by
  · have aux : ∀ (p q : Str), strStarts q p = true → p.length ≤ q.length := by
      intro p
      induction p with
      | nil => intro q _; simp
      | cons d ps ih =>
        intro q hq
        cases q with
        | nil => simp [strStarts] at hq
        | cons c ss =>
          simp [strStarts] at hq
          simpa using ih ss hq.2
    have h1 := aux old s h.2
    have h2 : 0 < old.length := List.length_pos.mpr h.1
    simp only [List.length_drop]
    omega
  · simp

/-- Splits s at the first occurrence of sep, returning the parts before and
after it, or none when sep does not occur. -/
def splitOnce (sep : Str) (s : Str) : Option (Str × Str) :=
  if strStarts s sep = true then some ([], s.drop sep.length)
  else
    match s with
    | [] => none
    | c :: rest => (splitOnce sep rest).map (fun p => (c :: p.1, p.2))
termination_by s.length
decreasing_by simp

/-- Models the whitespace class of Python str.strip for the ASCII range
(space, tab, newline, carriage return, vertical tab, form feed); non-ASCII
whitespace is not modelled. -/
def pyIsSpace (c : Char) : Bool :=
  c == ' ' || c == '\t' || c == '\n' || c == '\r' || c == '\x0b' || c == '\x0c'

/-- Models Python str.strip with no argument: removes whitespace from both ends. -/
def pyStrip (s : Str) : Str :=
  ((s.dropWhile pyIsSpace).reverse.dropWhile pyIsSpace).reverse

/-- Models Python api_url.rstrip applied to the slash character
(firecrawl.py line 55): removes every trailing slash. -/
def pyRstripSlashes (s : Str) : Str :=
  (s.reverse.dropWhile (fun c => c == '/')).reverse

/-- Models urllib.parse.urljoin restricted to the fragment this module
exercises: the second argument is an absolute path such as /v1/scrape, so for
a base of the form scheme, separator, authority, path the result keeps the
scheme and authority of the base and replaces its whole path. The authority
ends at the first slash, question mark or hash. A base with no scheme
separator yields the reference alone, as urljoin does for a scheme-less and
authority-less base. -/
def urljoinAbs (base ref : Str) : Str :=
  match splitOnce ("://".data) base with
  | some (scheme, rest) =>
      let netloc := rest.takeWhile (fun c => !(c == '/' || c == '?' || c == '#'))
      scheme ++ ("://".data) ++ netloc ++ ref
  | none => ref

/-- JSON values as delivered by the service: the value space of the response
bodies the loader consumes (floating point numbers are not modelled, the
loader never computes with numeric fields). -/
inductive JVal where
  | s : Str → JVal
  | i : Int → JVal
  | b : Bool → JVal
  | null : JVal
  | arr : List JVal → JVal
  | obj : List (Str × JVal) → JVal

/-- The single-quote character, used by the Python repr of strings. -/
def squote : Char := Char.ofNat 39

/-- Decimal rendering of an integer, as Python str does. -/
def pyStrInt (n : Int) : Str :=
  if n < 0 then '-' :: Nat.toDigits 10 n.natAbs else Nat.toDigits 10 n.natAbs

mutual

/-- Models Python repr on the JSON value space (string escaping inside
quotes is not modelled; the loader never inspects the rendered text). -/
def pyRepr : JVal → Str
  | .s v => squote :: (v ++ [squote])
  | .i n => pyStrInt n
  | .b true => "True".data
  | .b false => "False".data
  | .null => "None".data
  | .arr l => Char.ofNat 91 :: (pyReprSeq l ++ [Char.ofNat 93])
  | .obj l => Char.ofNat 123 :: (pyReprPairs l ++ [Char.ofNat 125])

/-- Comma-separated repr of list elements. -/
def pyReprSeq : List JVal → Str
  | [] => []
  | [x] => pyRepr x
  | x :: y :: xs => pyRepr x ++ ", ".data ++ pyReprSeq (y :: xs)

/-- Comma-separated repr of dict entries. -/
def pyReprPairs : List (Str × JVal) → Str
  | [] => []
  | [(k, v)] => (squote :: (k ++ [squote])) ++ ": ".data ++ pyRepr v
  | (k, v) :: p :: xs =>
      (squote :: (k ++ [squote])) ++ ": ".data ++ pyRepr v ++ ", ".data ++ pyReprPairs (p :: xs)

end

/-- Models Python str on the JSON value space: the identity on strings, repr
on everything else (for numbers, booleans and None the two agree). -/
def pyStr : JVal → Str
  | JVal.s v => v
  | JVal.i n => pyRepr (JVal.i n)
  | JVal.b v => pyRepr (JVal.b v)
  | JVal.null => pyRepr JVal.null
  | JVal.arr l => pyRepr (JVal.arr l)
  | JVal.obj l => pyRepr (JVal.obj l)

/-- True exactly on the null value, modelling the Python test value is None. -/
def isNullV : JVal → Bool
  | JVal.null => true
  | _ => false

/-- True exactly on arrays and objects, modelling isinstance value (dict, list). -/
def isComplexV : JVal → Bool
  | JVal.arr _ => true
  | JVal.obj _ => true
  | _ => false

/-- True exactly on strings. -/
def isStrV : JVal → Bool
  | JVal.s _ => true
  | _ => false

/-- Python dicts are modelled as association lists in insertion order; a
dict built by the interpreter never holds a duplicate key, so the first
matching entry is the entry. dictContains models the key in d test. -/
def dictContains : List (Str × JVal) → Str → Bool
  | [], _ => false
  | p :: t, k => p.1 == k || dictContains t k

/-- Models d.get k: the value stored at the first matching key, if any. -/
def dictGet : List (Str × JVal) → Str → Option JVal
  | [], _ => none
  | p :: t, k => if p.1 == k then some p.2 else dictGet t k

/-- Models d.get k dflt: like dictGet with a default for an absent key. -/
def dictGetD (d : List (Str × JVal)) (k : Str) (dflt : JVal) : JVal :=
  (dictGet d k).getD dflt

/-- Models the dict assignment d at k becomes v: updates the first matching
entry in place when the key exists, otherwise appends the new entry at the
end, preserving insertion order. -/
def dictSet : List (Str × JVal) → Str → JVal → List (Str × JVal)
  | [], k, v => [(k, v)]
  | p :: t, k, v => if p.1 == k then (k, v) :: t else p :: dictSet t k v

/-- A result document: text content plus a metadata mapping (the
langchain_core Document fields the loader populates). -/
structure Document where
  page_content : Str
  metadata : List (Str × JVal)

/-- The data object of a scrape response. The markdown and content fields
are text per the service contract; metadata, when present, is a JSON object
(so the isinstance dict check at firecrawl.py line 125 is satisfied; a
present but non-object metadata field is outside the model). -/
structure ScrapeData where
  markdown : Option Str
  content : Option Str
  metadata : Option (List (Str × JVal))

/-- The JSON body of a response to the single-page scrape request: success
defaults to false when absent, data to an empty object (all fields absent). -/
structure ScrapeResponse where
  success : Bool
  error : Option Str
  data : ScrapeData

/-- One entry of the data array of a completed crawl job; like ScrapeData,
the metadata field when present is a JSON object. -/
structure PageItem where
  markdown : Option Str
  content : Option Str
  sourceURL : Option Str
  metadata : Option (List (Str × JVal))

/-- The JSON body of a poll response: an optional status string, the page
data array (empty when absent), an optional message, and the progress
counters that the loop only logs. -/
structure StatusData where
  status : Option Str
  data : List PageItem
  message : Option Str
  completed : Option Int
  total : Option Int

/-- The JSON body of a crawl submission response. -/
structure CrawlSubmitResponse where
  id : Option Str
  url : Option Str
  message : Option Str

/-- Modelled from the spec: the ExtractUrlMode enumeration is declared in
open_webui.models.knowledge, outside this repository slice. The spec fixes
the operation mode as one of SCRAPE and CRAWL and additionally prescribes
behaviour for unknown operation mode values (log and yield zero documents),
so a third constructor stands for any such unknown value. -/
inductive ExtractUrlMode where
  | SCRAPE
  | CRAWL
  | other : Str → ExtractUrlMode

/-- The loader state set up by FireCrawlLoader.__init__ (firecrawl.py lines
54-57). The option bundles are constants and are not repeated here. -/
structure FireCrawlLoader where
  api_key : Str
  api_url : Str
  urls : List Str
  mode : ExtractUrlMode

/-- Embeds the validation and field setup of FireCrawlLoader.__init__
(firecrawl.py lines 48-57): requires a non-empty url list and a non-empty
api key, and strips trailing slashes from the api url. A single url string
argument is modelled as the one-element list __init__ normalises it to. -/
def FireCrawlLoader.init (urls : List Str) (api_key : Str) (api_url : Str)
    (mode : ExtractUrlMode) : Except Str FireCrawlLoader :=
  if urls.isEmpty then Except.error ("At least one URL must be provided.".data)
  else if api_key.isEmpty then Except.error ("FireCrawl API key must be provided.".data)
  else Except.ok ⟨api_key, pyRstripSlashes api_url, urls, mode⟩

/-- The scrape submission endpoint, firecrawl.py line 88. -/
def scrapeEndpoint (L : FireCrawlLoader) : Str :=
  urljoinAbs L.api_url ("/v1/scrape".data)

/-- The crawl submission endpoint, firecrawl.py lines 276-277. -/
def crawlEndpoint (L : FireCrawlLoader) : Str :=
  urljoinAbs L.api_url ("/v1/crawl".data)

/-- One iteration of the metadata loop of _scrape_url (firecrawl.py lines
131-137): fields other than title and description whose value is not None
are stored under the firecrawl_ prefixed key; the source's two assignment
branches (complex values and the rest) both store str of the value, and are
mirrored as such. -/
def scrapeMetaStep (md : List (Str × JVal)) (kv : Str × JVal) : List (Str × JVal) :=
  if !(kv.1 == ("title".data) || kv.1 == ("description".data)) && !isNullV kv.2 then
    if isComplexV kv.2 then
      dictSet md (("firecrawl_".data) ++ kv.1) (JVal.s (pyStr kv.2))
    else
      dictSet md (("firecrawl_".data) ++ kv.1) (JVal.s (pyStr kv.2))
  else md

/-- The content extraction of _scrape_url, firecrawl.py line 110. -/
def scrapeContent (resp : ScrapeResponse) : Str :=
  resp.data.markdown.getD (resp.data.content.getD [])

/-- Embeds FireCrawlLoader._scrape_url (firecrawl.py lines 85-148). The HTTP
transport is abstracted: the JSON body of the service response is the input,
and a raised exception is the error case of the result. -/
def scrapeUrl (url : Str) (resp : ScrapeResponse) : Except Str (List Document) :=
  if resp.success = false then
    Except.error (("FireCrawl scrape failed: ".data) ++
      resp.error.getD ("Unknown error during scrape.".data))
  else
    let content := scrapeContent resp
    if content.isEmpty || (pyStrip content).isEmpty then Except.ok []
    else
      let metadata := [(("source".data), JVal.s url), (("url".data), JVal.s url),
        (("firecrawl_mode".data), JVal.s ("scrape".data)),
        (("content_length".data), JVal.i content.length)]
      match resp.data.metadata with
      | some fm =>
          let metadata := dictSet metadata ("title".data) (dictGetD fm ("title".data) (JVal.s []))
          let metadata := dictSet metadata ("description".data)
            (dictGetD fm ("description".data) (JVal.s []))
          let metadata := fm.foldl scrapeMetaStep metadata
          Except.ok [⟨content, metadata⟩]
      | none => Except.ok [⟨content, metadata⟩]

/-- One iteration of the extra-metadata loop of _collect_results_sync
(firecrawl.py lines 262-264): a field whose key is not already a key of the
document metadata is stored, unmodified, under the firecrawl_ prefixed key. -/
def crawlMetaStep (md : List (Str × JVal)) (kv : Str × JVal) : List (Str × JVal) :=
  if dictContains md kv.1 = false then
    dictSet md (("firecrawl_".data) ++ kv.1) kv.2
  else md

/-- The document metadata built for one crawled page, firecrawl.py lines
248-264. -/
def crawlPageMetadata (firecrawl_job_id original_url source_url : Str)
    (md : Option (List (Str × JVal))) : List (Str × JVal) :=
  let metadata := [(("source".data), JVal.s source_url),
    (("title".data), dictGetD (md.getD []) ("title".data) (JVal.s [])),
    (("description".data), dictGetD (md.getD []) ("description".data) (JVal.s [])),
    (("url".data), JVal.s source_url),
    (("firecrawl_mode".data), JVal.s ("crawl".data)),
    (("job_id".data), JVal.s firecrawl_job_id),
    (("original_url".data), JVal.s original_url)]
  match md with
  | some fm => fm.foldl crawlMetaStep metadata
  | none => metadata

/-- The page loop of _collect_results_sync (firecrawl.py lines 238-266):
pages with falsy content are skipped, the rest become documents in order. -/
def collectLoop (firecrawl_job_id original_url : Str) : List PageItem → List Document
  | [] => []
  | item :: rest =>
    let content := item.markdown.getD (item.content.getD [])
    let source_url := item.sourceURL.getD original_url
    if content.isEmpty then collectLoop firecrawl_job_id original_url rest
    else
      ⟨content, crawlPageMetadata firecrawl_job_id original_url source_url item.metadata⟩
        :: collectLoop firecrawl_job_id original_url rest

/-- Embeds FireCrawlLoader._collect_results_sync (firecrawl.py lines
220-271), including the early return for an empty data list. -/
def collectResultsSync (firecrawl_job_id : Str) (crawled_pages_data : List PageItem)
    (original_url : Str) : List Document :=
  if crawled_pages_data.isEmpty then []
  else collectLoop firecrawl_job_id original_url crawled_pages_data

/-- The timeout message of _poll_crawl_status_sync, firecrawl.py line 167,
with max_wait_time interpolated as 600. -/
def timeoutMessage (firecrawl_job_id original_url : Str) : Str :=
  ("Timeout waiting for FireCrawl job ".data) ++ firecrawl_job_id ++
    (" (URL: ".data) ++ original_url ++ (") to complete after 600 seconds.".data)

/-- Outcome of the polling loop: collected documents, a raised exception
message, or pending when the supplied response trace ends while the real
loop would still be polling. -/
inductive PollResult where
  | docs : List Document → PollResult
  | failure : Str → PollResult
  | pending : PollResult

/-- Embeds FireCrawlLoader._poll_crawl_status_sync (firecrawl.py lines
150-218). Each iteration of the while loop is driven by one trace entry: the
elapsed time (current_time minus start_time) the deadline check observes,
and the JSON body the status request then returns; the timeout check
precedes the request, so a timed-out iteration never reads its response.
The fixed 5 time-unit sleep is real time, invisible in this model beyond
its effect on the elapsed values. -/
def pollCrawlStatusSync (firecrawl_job_id status_url original_url : Str) :
    List (Nat × StatusData) → PollResult
  | [] => PollResult.pending
  | (elapsed, status_data) :: rest =>
    if 600 < elapsed then
      PollResult.failure (timeoutMessage firecrawl_job_id original_url)
    else
      match status_data.status with
      | some st =>
        if st == ("completed".data) then
          PollResult.docs (collectResultsSync firecrawl_job_id status_data.data original_url)
        else if st == ("failed".data) || st == ("error".data) then
          PollResult.failure (("FireCrawl job failed: ".data) ++
            status_data.message.getD ("Unknown crawl error".data))
        else pollCrawlStatusSync firecrawl_job_id status_url original_url rest
      | none => pollCrawlStatusSync firecrawl_job_id status_url original_url rest

/-- The status-address scheme correction of _crawl_url, firecrawl.py lines
317-322: when the returned polling address is secure but the submission
address is not, Python str.replace rewrites every occurrence of the secure
scheme prefix in the polling address. -/
def fixStatusUrl (crawl_submit_url status_url : Str) : Str :=
  if strStarts status_url ("https://".data) && strStarts crawl_submit_url ("http://".data) then
    pyReplace ("https://".data) ("http://".data) status_url
  else status_url

/-- Embeds FireCrawlLoader._crawl_url (firecrawl.py lines 273-338): the
submission response is the input; a falsy job id or status address is a
raised exception (Python treats an absent and an empty field alike), then
the polling loop runs on the scheme-corrected status address. -/
def crawlUrl (api_url url : Str) (resp : CrawlSubmitResponse)
    (trace : List (Nat × StatusData)) : PollResult :=
  let crawl_submit_url := urljoinAbs api_url ("/v1/crawl".data)
  let firecrawl_job_id := resp.id.getD []
  if firecrawl_job_id.isEmpty then
    PollResult.failure (("FireCrawl crawl submission failed: ".data) ++
      resp.message.getD ("FireCrawl crawl submission did not return a job ID.".data))
  else
    let status_url := resp.url.getD []
    if status_url.isEmpty then
      PollResult.failure (("FireCrawl crawl submission failed: ".data) ++
        resp.message.getD ("FireCrawl crawl submission did not return a status URL.".data))
    else
      pollCrawlStatusSync firecrawl_job_id (fixStatusUrl crawl_submit_url status_url) url trace

/-- The service as seen through JSON bodies: a scrape response per locator, a
crawl submission response per locator, and the poll trace of that locator's
job (elapsed time at the deadline check plus status body, per iteration). -/
structure ServiceEnv where
  scrape : Str → ScrapeResponse
  crawlSubmit : Str → CrawlSubmitResponse
  crawlTrace : Str → List (Nat × StatusData)

/-- A submission the loader sends: the POST of a scrape request (line 95) or
the POST of a crawl submission (line 285), tagged with the target locator. -/
inductive SubmitEvent where
  | scrapePost : Str → SubmitEvent
  | crawlPost : Str → SubmitEvent

/-- What processing one locator produces: its documents, a raised exception
message, or pending when the modelled poll trace ran out. -/
inductive UrlOutcome where
  | docs : List Document → UrlOutcome
  | raised : Str → UrlOutcome
  | pending : UrlOutcome

/-- The per-locator dispatch of lazy_load (firecrawl.py lines 343-352):
scrape or crawl by mode, zero documents for an unknown mode. -/
def processUrl (L : FireCrawlLoader) (env : ServiceEnv) (url_item : Str) : UrlOutcome :=
  match L.mode with
  | ExtractUrlMode.SCRAPE =>
    match scrapeUrl url_item (env.scrape url_item) with
    | Except.ok docs_for_url => UrlOutcome.docs docs_for_url
    | Except.error e => UrlOutcome.raised e
  | ExtractUrlMode.CRAWL =>
    match crawlUrl L.api_url url_item (env.crawlSubmit url_item) (env.crawlTrace url_item) with
    | PollResult.docs docs_for_url => UrlOutcome.docs docs_for_url
    | PollResult.failure e => UrlOutcome.raised e
    | PollResult.pending => UrlOutcome.pending

  | ExtractUrlMode.other _ => UrlOutcome.docs []

/-- The per-locator dispatch of alazy_load (firecrawl.py lines 360-379),
which runs the same synchronous helpers through run_in_executor and awaits
each before moving on; the executor hop is invisible at this level. -/
def aprocessUrl (L : FireCrawlLoader) (env : ServiceEnv) (url_item : Str) : UrlOutcome :=
  match L.mode with
  | ExtractUrlMode.SCRAPE =>
    match scrapeUrl url_item (env.scrape url_item) with
    | Except.ok docs_for_url => UrlOutcome.docs docs_for_url
    | Except.error e => UrlOutcome.raised e
  | ExtractUrlMode.CRAWL =>
    match crawlUrl L.api_url url_item (env.crawlSubmit url_item) (env.crawlTrace url_item) with
    | PollResult.docs docs_for_url => UrlOutcome.docs docs_for_url
    | PollResult.failure e => UrlOutcome.raised e
    | PollResult.pending => UrlOutcome.pending
  | ExtractUrlMode.other _ => UrlOutcome.docs []

/-- The submissions that processing one locator sends before its response is
even examined: one scrape POST in SCRAPE mode, one crawl POST in CRAWL mode,
none for an unknown mode. -/
def modeEvents (L : FireCrawlLoader) (url_item : Str) : List SubmitEvent :=
  match L.mode with
  | ExtractUrlMode.SCRAPE => [SubmitEvent.scrapePost url_item]
  | ExtractUrlMode.CRAWL => [SubmitEvent.crawlPost url_item]
  | ExtractUrlMode.other _ => []

/-- What a consumer draining the generator sees: the documents yielded (in
order), the submissions sent, the exception that ended the iteration if any,
and a stuck marker for a poll trace that ran out mid-loop. -/
structure LoadOutcome where
  docs : List Document
  events : List SubmitEvent
  err : Option Str
  stuck : Bool

/-- The url loop of lazy_load (firecrawl.py lines 342-355): locators strictly
in order, each one's documents yielded before the next locator is touched; a
raised exception ends the sequence after the documents already yielded. -/
def lazyLoadFrom (L : FireCrawlLoader) (env : ServiceEnv) : List Str → LoadOutcome
  | [] => ⟨[], [], none, false⟩
  | url_item :: rest =>
    match processUrl L env url_item with
    | UrlOutcome.docs docs_for_url =>
      let o := lazyLoadFrom L env rest
      ⟨docs_for_url ++ o.docs, modeEvents L url_item ++ o.events, o.err, o.stuck⟩
    | UrlOutcome.raised e => ⟨[], modeEvents L url_item, some e, false⟩
    | UrlOutcome.pending => ⟨[], modeEvents L url_item, none, true⟩

/-- Embeds FireCrawlLoader.lazy_load (firecrawl.py lines 340-355). -/
def lazyLoad (L : FireCrawlLoader) (env : ServiceEnv) : LoadOutcome :=
  lazyLoadFrom L env L.urls

/-- The url loop of alazy_load (firecrawl.py lines 359-382), built on the
async per-locator dispatch. -/
def alazyLoadFrom (L : FireCrawlLoader) (env : ServiceEnv) : List Str → LoadOutcome
  | [] => ⟨[], [], none, false⟩
  | url_item :: rest =>
    match aprocessUrl L env url_item with
    | UrlOutcome.docs docs_for_url =>
      let o := alazyLoadFrom L env rest
      ⟨docs_for_url ++ o.docs, modeEvents L url_item ++ o.events, o.err, o.stuck⟩
    | UrlOutcome.raised e => ⟨[], modeEvents L url_item, some e, false⟩
    | UrlOutcome.pending => ⟨[], modeEvents L url_item, none, true⟩

/-- Embeds FireCrawlLoader.alazy_load (firecrawl.py lines 357-382). -/
def alazyLoad (L : FireCrawlLoader) (env : ServiceEnv) : LoadOutcome :=
  alazyLoadFrom L env L.urls

/-- The documents delivered by a scrape call, empty when it raised. -/
def okDocs : Except Str (List Document) → List Document
  | Except.ok ds => ds
  | Except.error _ => []

/-- The documents one locator resolves to, empty unless it resolves. -/
def urlDocs (L : FireCrawlLoader) (env : ServiceEnv) (u : Str) : List Document :=
  match processUrl L env u with
  | UrlOutcome.docs ds => ds
  | UrlOutcome.raised _ => []
  | UrlOutcome.pending => []

/-- The document one crawled page yields, if any: the per-item body of the
page loop of _collect_results_sync as a function of a single item. -/
def pageDoc (firecrawl_job_id original_url : Str) (item : PageItem) : Option Document :=
  let content := item.markdown.getD (item.content.getD [])
  let source_url := item.sourceURL.getD original_url
  if content.isEmpty then none
  else some ⟨content, crawlPageMetadata firecrawl_job_id original_url source_url item.metadata⟩

/-- True when a poll response carries a terminal status (completed, failed
or error), the statuses that end the polling loop. -/
def terminalStatus (status_data : StatusData) : Bool :=
  status_data.status == some ("completed".data) ||
    status_data.status == some ("failed".data) ||
    status_data.status == some ("error".data)

/-- The keys the crawl-mode document metadata holds before the extra
service-reported fields are merged (firecrawl.py lines 248-256). -/
def crawlBaseKeys : List Str :=
  [("source".data), ("title".data), ("description".data), ("url".data),
    ("firecrawl_mode".data), ("job_id".data), ("original_url".data)]

theorem dictGet_set_self (d : List (Str × JVal)) (k : Str) (v : JVal) :
    dictGet (dictSet d k v) k = some v := by
  induction d with
  | nil => simp [dictSet, dictGet]
  | cons p t ih =>
    by_cases h : p.1 = k
    · simp [dictSet, dictGet, h]
    · simp [dictSet, dictGet, h, ih]

theorem dictGet_set_ne (d : List (Str × JVal)) (k k2 : Str) (v : JVal) (h : k2 ≠ k) :
    dictGet (dictSet d k v) k2 = dictGet d k2 := by
  have hne : ¬k = k2 := fun hh => h hh.symm
  induction d with
  | nil => simp [dictSet, dictGet, hne]
  | cons p t ih =>
    by_cases hp : p.1 = k
    · simp [dictSet, dictGet, hp, hne]
    · by_cases hq : p.1 = k2
      · simp [dictSet, dictGet, hp, hq, h]
      · simp [dictSet, dictGet, hp, hq, ih]

theorem dictContains_set_imp (d : List (Str × JVal)) (k : Str) (v : JVal) (k2 : Str)
    (h : dictContains (dictSet d k v) k2 = true) :
    dictContains d k2 = true ∨ k2 = k := by
  induction d with
  | nil =>
    simp [dictSet, dictContains] at h
    right; exact h.symm
  | cons p t ih =>
    by_cases hp : p.1 = k
    · simp [dictSet, dictContains, hp] at h ⊢
      rcases h with h | h
      · right; exact h.symm
      · left; right; exact h
    · simp [dictSet, dictContains, hp] at h ⊢
      rcases h with h | h
      · left; left; exact h
      · rcases ih h with h2 | h2
        · left; right; exact h2
        · right; exact h2

theorem dictContains_false_get_none (d : List (Str × JVal)) (k : Str)
    (hc : dictContains d k = false) : dictGet d k = none := by
  induction d with
  | nil => simp [dictGet]
  | cons p t ih =>
    simp [dictContains] at hc
    simp [dictGet, hc.1, ih hc.2]

/-- C6. For every loader configuration and every sequence of service
responses, the non-blocking load entry point yields exactly the same outcome
as the blocking one: the same documents with the same content and metadata,
in the same order, the same submissions, and the same error state. -/
theorem alazy_load_equals_lazy_load (L : FireCrawlLoader) (env : ServiceEnv) :
    alazyLoad L env = lazyLoad L env := by
  unfold alazyLoad lazyLoad
  suffices h : ∀ us, alazyLoadFrom L env us = lazyLoadFrom L env us from h L.urls
  intro us
  induction us with
  | nil => rfl
  | cons u rest ih =>
    have hpu : aprocessUrl L env u = processUrl L env u := rfl
    simp only [alazyLoadFrom, lazyLoadFrom, hpu]
    cases processUrl L env u <;> simp [ih]

theorem unknown_mode_yields_nothing (L : FireCrawlLoader) (env : ServiceEnv) (s : Str)
    (h : L.mode = ExtractUrlMode.other s) :
    lazyLoad L env = ⟨[], [], none, false⟩ ∧ alazyLoad L env = ⟨[], [], none, false⟩ := by
  have hl : ∀ us, lazyLoadFrom L env us = ⟨[], [], none, false⟩ := by
    intro us
    induction us with
    | nil => rfl
    | cons u rest ih =>
      simp [lazyLoadFrom, processUrl, modeEvents, h, ih]
  have ha : ∀ us, alazyLoadFrom L env us = ⟨[], [], none, false⟩ := by
    intro us
    induction us with
    | nil => rfl
    | cons u rest ih =>
      simp [alazyLoadFrom, aprocessUrl, modeEvents, h, ih]
  exact ⟨hl L.urls, ha L.urls⟩

/-- Witness for C8 at a concrete loader with an unknown mode value and two
locators. -/
theorem unknown_mode_yields_nothing_witness :
    lazyLoad ⟨("k".data), ("http://h".data), [("a".data), ("b".data)],
        ExtractUrlMode.other ("bogus".data)⟩
      ⟨fun _ => ⟨false, none, ⟨none, none, none⟩⟩, fun _ => ⟨none, none, none⟩, fun _ => []⟩ =
      ⟨[], [], none, false⟩ :=
  (unknown_mode_yields_nothing _ _ ("bogus".data) rfl).1

/-- C9. The empty-content filters of the two modes differ at the public
interface: a page whose content is whitespace-only but non-empty is emitted
as a document in crawl mode, where only falsy content is skipped, while the
same content in scrape mode yields zero documents. -/
theorem whitespace_filter_asymmetry (c : Str) (hne : c ≠ []) (hws : pyStrip c = []) :
    (∀ (firecrawl_job_id original_url : Str) (item : PageItem) (rest : List PageItem),
      item.markdown = some c →
      collectLoop firecrawl_job_id original_url (item :: rest) =
        ⟨c, crawlPageMetadata firecrawl_job_id original_url
              (item.sourceURL.getD original_url) item.metadata⟩
          :: collectLoop firecrawl_job_id original_url rest) ∧
    (∀ (url : Str) (resp : ScrapeResponse), resp.success = true →
      resp.data.markdown = some c → scrapeUrl url resp = Except.ok []) := by
  constructor
  · intro jid ourl item rest hm
    have hie : c.isEmpty = false := by
      cases c with
      | nil => exact absurd rfl hne
      | cons a t => rfl
    simp [collectLoop, hm, hie]
  · intro url resp hs hm
    simp [scrapeUrl, hs, scrapeContent, hm, hws]

/-- Witness for C9 at the single-space content. -/
theorem whitespace_filter_asymmetry_witness :
    (collectLoop ("j1".data) ("u".data) [⟨some [' '], none, none, none⟩] =
      [⟨[' '], crawlPageMetadata ("j1".data) ("u".data) ("u".data) none⟩]) ∧
    (scrapeUrl ("u".data) ⟨true, none, ⟨some [' '], none, none⟩⟩ = Except.ok []) := by
  have h := whitespace_filter_asymmetry [' '] (by decide) (by decide)
  constructor
  · exact h.1 ("j1".data) ("u".data) ⟨some [' '], none, none, none⟩ [] rfl
  · exact h.2 ("u".data) ⟨true, none, ⟨some [' '], none, none⟩⟩ rfl rfl

theorem scrapeUrl_ok_content (url : Str) (resp : ScrapeResponse) (ds : List Document)
    (h : scrapeUrl url resp = Except.ok ds) : ∀ d ∈ ds, d.page_content ≠ [] := by
  unfold scrapeUrl at h
  by_cases hs : resp.success = false
  · simp [hs] at h
  · rw [if_neg hs] at h
    by_cases hc : (scrapeContent resp).isEmpty || (pyStrip (scrapeContent resp)).isEmpty
    · rw [if_pos hc] at h
      simp at h
      subst h
      simp
    · rw [if_neg hc] at h
      have hne : scrapeContent resp ≠ [] := by
        simp at hc
        simpa [List.isEmpty_iff] using hc.1
      cases hm : resp.data.metadata with
      | some fm =>
        rw [hm] at h
        simp at h
        subst h
        intro d hd
        simp at hd
        subst hd
        exact hne
      | none =>
        rw [hm] at h
        simp at h
        subst h
        intro d hd
        simp at hd
        subst hd
        exact hne

theorem collectLoop_content_nonempty (firecrawl_job_id original_url : Str)
    (pages : List PageItem) :
    ∀ d ∈ collectLoop firecrawl_job_id original_url pages, d.page_content ≠ [] := by
  induction pages with
  | nil => simp [collectLoop]
  | cons item rest ih =>
    intro d hd
    by_cases hc : (item.markdown.getD (item.content.getD [])).isEmpty
    · simp [collectLoop, hc] at hd
      exact ih d hd
    · simp [collectLoop, hc] at hd
      rcases hd with hd | hd
      · subst hd
        simpa [List.isEmpty_iff] using hc
      · exact ih d hd

theorem collectResultsSync_content_nonempty (firecrawl_job_id original_url : Str)
    (pages : List PageItem) :
    ∀ d ∈ collectResultsSync firecrawl_job_id pages original_url, d.page_content ≠ [] := by
  unfold collectResultsSync
  split
  · simp
  · exact collectLoop_content_nonempty firecrawl_job_id original_url pages

theorem poll_docs_content_nonempty (firecrawl_job_id status_url original_url : Str)
    (trace : List (Nat × StatusData)) (ds : List Document)
    (h : pollCrawlStatusSync firecrawl_job_id status_url original_url trace =
      PollResult.docs ds) : ∀ d ∈ ds, d.page_content ≠ [] := by
  induction trace with
  | nil => simp [pollCrawlStatusSync] at h
  | cons e rest ih =>
    obtain ⟨t, sd⟩ := e
    by_cases ht : 600 < t
    · simp [pollCrawlStatusSync, ht] at h
    · cases hst : sd.status with
      | none =>
        simp [pollCrawlStatusSync, ht, hst] at h
        exact ih h
      | some st =>
        by_cases hcomp : (st == ("completed".data)) = true
        · simp [pollCrawlStatusSync, ht, hst, hcomp] at h
          subst h
          exact collectResultsSync_content_nonempty firecrawl_job_id original_url sd.data
        · by_cases hfail : (st == ("failed".data) || st == ("error".data)) = true
          · simp [pollCrawlStatusSync, ht, hst, hcomp, hfail] at h
          · simp [pollCrawlStatusSync, ht, hst, hcomp, hfail] at h
            exact ih h

theorem crawlUrl_docs_content_nonempty (api_url url : Str) (resp : CrawlSubmitResponse)
    (trace : List (Nat × StatusData)) (ds : List Document)
    (h : crawlUrl api_url url resp trace = PollResult.docs ds) :
    ∀ d ∈ ds, d.page_content ≠ [] := by
  unfold crawlUrl at h
  by_cases hid : (resp.id.getD []).isEmpty
  · simp [hid] at h
  · rw [if_neg (by simpa using hid)] at h
    by_cases hsu : (resp.url.getD []).isEmpty
    · simp [hsu] at h
    · rw [if_neg (by simpa using hsu)] at h
      exact poll_docs_content_nonempty _ _ _ _ _ h

theorem processUrl_docs_content_nonempty (L : FireCrawlLoader) (env : ServiceEnv)
    (u : Str) (ds : List Document) (h : processUrl L env u = UrlOutcome.docs ds) :
    ∀ d ∈ ds, d.page_content ≠ [] := by
  unfold processUrl at h
  cases hm : L.mode with
  | SCRAPE =>
    rw [hm] at h
    cases hs : scrapeUrl u (env.scrape u) with
    | ok ds2 =>
      rw [hs] at h
      simp at h
      subst h
      exact scrapeUrl_ok_content u (env.scrape u) _ hs
    | error e => simp [hs] at h
  | CRAWL =>
    rw [hm] at h
    cases hc : crawlUrl L.api_url u (env.crawlSubmit u) (env.crawlTrace u) with
    | docs ds2 =>
      rw [hc] at h
      simp at h
      subst h
      exact crawlUrl_docs_content_nonempty _ _ _ _ _ hc
    | failure e => simp [hc] at h
    | pending => simp [hc] at h
  | other s =>
    rw [hm] at h
    simp at h
    subst h
    simp

/-- C2. Every document either load entry point emits has non-empty text
content; a page whose extracted content is empty is skipped rather than
emitted, and skipping is not an error: the scrape call returns an empty
document list, and the crawl page loop moves on to the remaining pages. -/
theorem emitted_documents_nonempty :
    (∀ (L : FireCrawlLoader) (env : ServiceEnv) (d : Document),
      d ∈ (lazyLoad L env).docs → d.page_content ≠ []) ∧
    (∀ (url : Str) (resp : ScrapeResponse), resp.success = true →
      scrapeContent resp = [] → scrapeUrl url resp = Except.ok []) ∧
    (∀ (firecrawl_job_id original_url : Str) (item : PageItem) (rest : List PageItem),
      item.markdown.getD (item.content.getD []) = [] →
      collectLoop firecrawl_job_id original_url (item :: rest) =
        collectLoop firecrawl_job_id original_url rest) := by
  refine ⟨?_, ?_, ?_⟩
  · intro L env
    suffices hh : ∀ us d, d ∈ (lazyLoadFrom L env us).docs → d.page_content ≠ [] from hh L.urls
    intro us
    induction us with
    | nil => simp [lazyLoadFrom]
    | cons u rest ih =>
      intro d hd
      cases hpu : processUrl L env u with
      | docs ds =>
        simp [lazyLoadFrom, hpu] at hd
        rcases hd with hd | hd
        · exact processUrl_docs_content_nonempty L env u ds hpu d hd
        · exact ih d hd
      | raised e => simp [lazyLoadFrom, hpu] at hd
      | pending => simp [lazyLoadFrom, hpu] at hd
  · intro url resp hs hc
    have : resp.success = false → False := by simp [hs]
    simp [scrapeUrl, hs, hc, pyStrip]
  · intro jid ourl item rest hc
    simp [collectLoop, hc]

/-- Witness for C2 at concrete inputs: a scrape-produced document with
non-empty content, an empty-content scrape returning no documents without
error, and an empty crawled page being skipped. -/
theorem emitted_documents_nonempty_witness :
    ((⟨("# Hi".data),
        [(("source".data), JVal.s ("u".data)), (("url".data), JVal.s ("u".data)),
          (("firecrawl_mode".data), JVal.s ("scrape".data)),
          (("content_length".data), JVal.i 4)]⟩ : Document).page_content ≠ []) ∧
    (scrapeUrl ("u".data) ⟨true, none, ⟨some [], none, none⟩⟩ = Except.ok []) ∧
    (collectLoop ("j1".data) ("u".data) [⟨none, none, none, none⟩] =
      collectLoop ("j1".data) ("u".data) []) := by
  refine ⟨?_, ?_, ?_⟩
  · exact emitted_documents_nonempty.1
      ⟨("k".data), ("http://h".data), [("u".data)], ExtractUrlMode.SCRAPE⟩
      ⟨fun _ => ⟨true, none, ⟨some ("# Hi".data), none, none⟩⟩,
        fun _ => ⟨none, none, none⟩, fun _ => []⟩
      _ (by simp [lazyLoad, lazyLoadFrom, processUrl, scrapeUrl, scrapeContent, pyStrip,
            pyIsSpace])
  · exact emitted_documents_nonempty.2.1 ("u".data) ⟨true, none, ⟨some [], none, none⟩⟩ rfl rfl
  · exact emitted_documents_nonempty.2.2 ("j1".data) ("u".data) ⟨none, none, none, none⟩ [] rfl

theorem poll_timeout_core (firecrawl_job_id status_url original_url : Str) :
    ∀ trace : List (Nat × StatusData),
      (∀ e ∈ trace, terminalStatus e.2 = false) → (∃ e ∈ trace, 600 < e.1) →
      pollCrawlStatusSync firecrawl_job_id status_url original_url trace =
        PollResult.failure (timeoutMessage firecrawl_job_id original_url) := by
  intro trace
  induction trace with
  | nil =>
    intro _ hover
    simp at hover
  | cons e rest ih =>
    intro hterm hover
    obtain ⟨t, sd⟩ := e
    by_cases ht : 600 < t
    · simp [pollCrawlStatusSync, ht]
    · have hterm0 : terminalStatus sd = false := hterm (t, sd) (by simp)
      have hov : ∃ e ∈ rest, 600 < e.1 := by
        rcases hover with ⟨e, he, hgt⟩
        rcases List.mem_cons.mp he with he1 | he2
        · subst he1; exact absurd hgt ht
        · exact ⟨e, he2, hgt⟩
      have htl := ih (fun e he => hterm e (List.mem_cons_of_mem _ he)) hov
      cases hst : sd.status with
      | none => simp [pollCrawlStatusSync, ht, hst, htl]
      | some st =>
        simp [terminalStatus, hst] at hterm0
        obtain ⟨⟨h1, h2⟩, h3⟩ := hterm0
        simp [pollCrawlStatusSync, ht, hst, h1, h2, h3, htl]

/-- C4. A crawl polling loop that never observes a terminal status raises a
fatal timeout error, naming the job identifier and the original locator,
once the elapsed time measured from the first poll attempt exceeds 600
time-units, instead of polling further. -/
theorem poll_timeout_after_deadline (firecrawl_job_id status_url original_url : Str)
    (trace : List (Nat × StatusData))
    (hterm : ∀ e ∈ trace, terminalStatus e.2 = false)
    (hover : ∃ e ∈ trace, 600 < e.1) :
    pollCrawlStatusSync firecrawl_job_id status_url original_url trace =
      PollResult.failure (timeoutMessage firecrawl_job_id original_url) ∧
    (∃ a b, timeoutMessage firecrawl_job_id original_url = a ++ (firecrawl_job_id ++ b)) ∧
    (∃ a b, timeoutMessage firecrawl_job_id original_url = a ++ (original_url ++ b)) := by
  refine ⟨poll_timeout_core firecrawl_job_id status_url original_url trace hterm hover, ?_, ?_⟩
  · refine ⟨("Timeout waiting for FireCrawl job ".data),
      (" (URL: ".data) ++ (original_url ++ (") to complete after 600 seconds.".data)), ?_⟩
    simp [timeoutMessage]
  · refine ⟨("Timeout waiting for FireCrawl job ".data) ++
        (firecrawl_job_id ++ (" (URL: ".data)),
      (") to complete after 600 seconds.".data), ?_⟩
    simp [timeoutMessage]

/-- Witness for C4 at a concrete job: two non-terminal polls, the second
observed 601 time-units in. -/
theorem poll_timeout_after_deadline_witness :
    pollCrawlStatusSync ("j1".data) ("http://h/v1/crawl/j1".data) ("http://site".data)
      [(0, ⟨some ("scraping".data), [], none, some 1, some 4⟩),
        (601, ⟨some ("scraping".data), [], none, some 2, some 4⟩)] =
      PollResult.failure (timeoutMessage ("j1".data) ("http://site".data)) :=
  (poll_timeout_after_deadline ("j1".data) ("http://h/v1/crawl/j1".data) ("http://site".data)
    _ (by decide) (by decide)).1

theorem scrapeUrl_success_exists (url : Str) (resp : ScrapeResponse)
    (hs : resp.success = true) : ∃ ds, scrapeUrl url resp = Except.ok ds := by
  unfold scrapeUrl
  rw [if_neg (by simp [hs])]
  by_cases hc : (scrapeContent resp).isEmpty || (pyStrip (scrapeContent resp)).isEmpty
  · rw [if_pos hc]; exact ⟨[], rfl⟩
  · rw [if_neg hc]
    cases hm : resp.data.metadata with
    | some fm => exact ⟨_, rfl⟩
    | none => exact ⟨_, rfl⟩

theorem scrapeUrl_docs_le_one (url : Str) (resp : ScrapeResponse)
    (hs : resp.success = true) :
    (okDocs (scrapeUrl url resp)).length ≤ 1 ∧
    (okDocs (scrapeUrl url resp) = [] ↔ pyStrip (scrapeContent resp) = []) := by
  unfold scrapeUrl okDocs
  rw [if_neg (by simp [hs])]
  by_cases hc : (scrapeContent resp).isEmpty || (pyStrip (scrapeContent resp)).isEmpty
  · rw [if_pos hc]
    have hstrip : pyStrip (scrapeContent resp) = [] := by
      simp at hc
      rcases hc with hc | hc
      · rw [hc]; rfl
      · exact hc
    simp [hstrip]
  · rw [if_neg hc]
    simp at hc
    have hstrip : pyStrip (scrapeContent resp) ≠ [] := hc.2
    cases hm : resp.data.metadata with
    | some fm => simp [hstrip]
    | none => simp [hstrip]

theorem lazyLoadFrom_scrape_eq (L : FireCrawlLoader) (env : ServiceEnv)
    (hmode : L.mode = ExtractUrlMode.SCRAPE) :
    ∀ us : List Str, (∀ u ∈ us, (env.scrape u).success = true) →
      lazyLoadFrom L env us =
        ⟨us.flatMap (fun u => okDocs (scrapeUrl u (env.scrape u))),
          us.map SubmitEvent.scrapePost, none, false⟩ := by
  intro us
  induction us with
  | nil => intro _; rfl
  | cons u rest ih =>
    intro hsucc
    obtain ⟨ds, hds⟩ := scrapeUrl_success_exists u (env.scrape u) (hsucc u (by simp))
    have hpu : processUrl L env u = UrlOutcome.docs ds := by
      simp [processUrl, hmode, hds]
    have hev : modeEvents L u = [SubmitEvent.scrapePost u] := by
      simp [modeEvents, hmode]
    have htl := ih (fun u2 hu2 => hsucc u2 (List.mem_cons_of_mem _ hu2))
    simp [lazyLoadFrom, hpu, hev, htl, hds, okDocs]

/-- C5. In SCRAPE mode, for every non-empty locator list whose scrape calls
all succeed at the service level, the loader sends exactly one scrape
submission per locator, in order, raises nothing, yields at most one
document per locator, and yields zero documents for a locator exactly when
the extracted content is empty or whitespace-only. -/
theorem scrape_one_submission_per_locator (L : FireCrawlLoader) (env : ServiceEnv)
    (hmode : L.mode = ExtractUrlMode.SCRAPE) (hne : L.urls ≠ [])
    (hsucc : ∀ u ∈ L.urls, (env.scrape u).success = true) :
    (lazyLoad L env).events = L.urls.map SubmitEvent.scrapePost ∧
    (lazyLoad L env).err = none ∧
    (lazyLoad L env).docs = L.urls.flatMap (fun u => okDocs (scrapeUrl u (env.scrape u))) ∧
    (∀ u ∈ L.urls, (okDocs (scrapeUrl u (env.scrape u))).length ≤ 1 ∧
      (okDocs (scrapeUrl u (env.scrape u)) = [] ↔
        pyStrip (scrapeContent (env.scrape u)) = [])) := by
  have h := lazyLoadFrom_scrape_eq L env hmode L.urls hsucc
  unfold lazyLoad
  rw [h]
  exact ⟨rfl, rfl, rfl, fun u hu => scrapeUrl_docs_le_one u (env.scrape u) (hsucc u hu)⟩

/-- Witness for C5 at a loader with two locators whose scrapes succeed. -/
theorem scrape_one_submission_per_locator_witness :
    (lazyLoad ⟨("k".data), ("http://h".data), [("a".data), ("b".data)],
        ExtractUrlMode.SCRAPE⟩
      ⟨fun _ => ⟨true, none, ⟨some ("hi".data), none, none⟩⟩,
        fun _ => ⟨none, none, none⟩, fun _ => []⟩).events =
      [SubmitEvent.scrapePost ("a".data), SubmitEvent.scrapePost ("b".data)] :=
  (scrape_one_submission_per_locator _ _ rfl (by simp) (fun u _ => rfl)).1

theorem lazyLoadFrom_docs_resolved (L : FireCrawlLoader) (env : ServiceEnv) :
    ∀ us : List Str, (∀ u ∈ us, ∃ ds, processUrl L env u = UrlOutcome.docs ds) →
      (lazyLoadFrom L env us).docs = us.flatMap (fun u => urlDocs L env u) := by
  intro us
  induction us with
  | nil => intro _; rfl
  | cons u rest ih =>
    intro hres
    obtain ⟨ds, hds⟩ := hres u (by simp)
    have htl := ih (fun u2 hu2 => hres u2 (List.mem_cons_of_mem _ hu2))
    simp [lazyLoadFrom, hds, urlDocs, htl]

/-- C7. Documents are yielded in the order of the supplied locators, each
locator resolving fully before the next is processed (the yielded sequence
is the concatenation of the per-locator document lists, in locator order),
and within one crawl job the per-page documents follow the order in which
the service reported the pages (the page loop is an order-preserving
filter-map over the reported page list). -/
theorem documents_in_locator_order (L : FireCrawlLoader) (env : ServiceEnv)
    (hres : ∀ u ∈ L.urls, ∃ ds, processUrl L env u = UrlOutcome.docs ds) :
    (lazyLoad L env).docs = L.urls.flatMap (fun u => urlDocs L env u) ∧
    (∀ (firecrawl_job_id original_url : Str) (pages : List PageItem),
      collectLoop firecrawl_job_id original_url pages =
        pages.filterMap (pageDoc firecrawl_job_id original_url)) := by
  constructor
  · exact lazyLoadFrom_docs_resolved L env L.urls hres
  · intro jid ourl pages
    induction pages with
    | nil => rfl
    | cons item rest ih =>
      by_cases hc : (item.markdown.getD (item.content.getD [])).isEmpty
      · simp [collectLoop, pageDoc, hc, ih]
      · simp [collectLoop, pageDoc, hc, ih]

/-- Witness for C7 at a two-locator scrape loader whose calls all resolve. -/
theorem documents_in_locator_order_witness :
    (lazyLoad ⟨("k".data), ("http://h".data), [("a".data), ("b".data)],
        ExtractUrlMode.SCRAPE⟩
      ⟨fun _ => ⟨true, none, ⟨some ("hi".data), none, none⟩⟩,
        fun _ => ⟨none, none, none⟩, fun _ => []⟩).docs =
      [("a".data), ("b".data)].flatMap
        (fun u => urlDocs ⟨("k".data), ("http://h".data), [("a".data), ("b".data)],
            ExtractUrlMode.SCRAPE⟩
          ⟨fun _ => ⟨true, none, ⟨some ("hi".data), none, none⟩⟩,
            fun _ => ⟨none, none, none⟩, fun _ => []⟩ u) :=
  (documents_in_locator_order
    ⟨("k".data), ("http://h".data), [("a".data), ("b".data)], ExtractUrlMode.SCRAPE⟩
    ⟨fun _ => ⟨true, none, ⟨some ("hi".data), none, none⟩⟩,
      fun _ => ⟨none, none, none⟩, fun _ => []⟩
    (fun u _ => ⟨_, rfl⟩)).1

theorem strStarts_append (p r : Str) : strStarts (p ++ r) p = true := by
  induction p with
  | nil => cases r <;> rfl
  | cons c t ih => simp [strStarts, ih]

theorem pyReplace_no_occurrence (old new : Str) :
    ∀ s : Str, strContains s old = false → pyReplace old new s = s := by
  intro s
  induction s with
  | nil =>
    intro h
    have hcond : ¬(old ≠ [] ∧ strStarts [] old = true) := by
      rintro ⟨h1, h2⟩
      cases old with
      | nil => exact h1 rfl
      | cons a b => simp [strStarts] at h2
    simp [pyReplace, hcond]
  | cons c rest ih =>
    intro h
    rw [strContains] at h
    simp at h
    have hcond : ¬(old ≠ [] ∧ strStarts (c :: rest) old = true) := by
      rintro ⟨h1, h2⟩
      rw [h.1] at h2
      cases h2
    rw [pyReplace]
    rw [dif_neg hcond]
    show c :: pyReplace old new rest = c :: rest
    rw [ih h.2]

theorem list_drop_len_append (p r : Str) : (p ++ r).drop p.length = r := by
  simp

/-- Counterexample for C1 as stated: Python str.replace rewrites every
occurrence of the secure scheme prefix, so a returned polling address that
contains the prefix again later in its path or query does not keep its host
and path unchanged. -/
theorem crawl_status_rewrite_cex :
    fixStatusUrl ("http://h/v1/crawl".data) ("https://h/v1/crawl/j?u=https://x".data) ≠
      ("http://".data) ++ (("https://h/v1/crawl/j?u=https://x".data).drop 8) := by
  simp [fixStatusUrl, strStarts, pyReplace]

/-- C1 (amended). When the crawl submission address is insecure and the
returned polling address is secure, the polling address used is the returned
address with every occurrence of the secure scheme prefix replaced by the
insecure one; when the remainder of the address contains no further such
occurrence, this is exactly a scheme rewrite leaving host and path unchanged. -/
theorem crawl_status_scheme_rewrite (crawl_submit_url rest : Str)
    (hsub : strStarts crawl_submit_url ("http://".data) = true)
    (hnc : strContains rest ("https://".data) = false) :
    fixStatusUrl crawl_submit_url (("https://".data) ++ rest) = ("http://".data) ++ rest := by
  unfold fixStatusUrl
  have h1 : strStarts (("https://".data) ++ rest) ("https://".data) = true :=
    strStarts_append _ _
  rw [if_pos (by rw [h1, hsub]; rfl)]
  rw [pyReplace]
  rw [dif_pos ⟨by simp, h1⟩]
  rw [list_drop_len_append]
  rw [pyReplace_no_occurrence _ _ rest hnc]

/-- Witness for C1 (amended) at a concrete submission and polling address. -/
theorem crawl_status_scheme_rewrite_witness :
    fixStatusUrl ("http://h/v1/crawl".data) (("https://".data) ++ ("h/v1/crawl/j1".data)) =
      ("http://".data) ++ ("h/v1/crawl/j1".data) :=
  crawl_status_scheme_rewrite ("http://h/v1/crawl".data) ("h/v1/crawl/j1".data)
    (by decide) (by decide)

theorem splitOnce_http (r : Str) :
    splitOnce ("://".data) (("http://".data) ++ r) = some ("http".data, r) := by
  simp [splitOnce, strStarts]

theorem splitOnce_https (r : Str) :
    splitOnce ("://".data) (("https://".data) ++ r) = some ("https".data, r) := by
  simp [splitOnce, strStarts]

theorem takeWhile_all_append (p : Char → Bool) (l1 l2 : Str)
    (h : ∀ c ∈ l1, p c = true) : (l1 ++ l2).takeWhile p = l1 ++ l2.takeWhile p := by
  induction l1 with
  | nil => rfl
  | cons c t ih =>
    have hc : p c = true := h c (by simp)
    simp [List.takeWhile, hc]
    exact ih (fun c2 hc2 => h c2 (by simp [hc2]))

theorem dropWhile_append_nil (p : Char → Bool) (l1 l2 : Str)
    (h : l1.dropWhile p = []) : (l1 ++ l2).dropWhile p = l2.dropWhile p := by
  induction l1 with
  | nil => rfl
  | cons c t ih =>
    by_cases hc : p c = true
    · rw [List.dropWhile_cons, if_pos hc] at h
      rw [List.cons_append, List.dropWhile_cons, if_pos hc]
      exact ih h
    · rw [List.dropWhile_cons, if_neg hc] at h
      cases h

theorem dropWhile_append_cons (p : Char → Bool) (l1 l2 : Str) (d : Char) (t : Str)
    (h : l1.dropWhile p = d :: t) : (l1 ++ l2).dropWhile p = d :: (t ++ l2) := by
  induction l1 with
  | nil => simp at h
  | cons c u ih =>
    by_cases hc : p c = true
    · rw [List.dropWhile_cons, if_pos hc] at h
      rw [List.cons_append, List.dropWhile_cons, if_pos hc]
      exact ih h
    · rw [List.dropWhile_cons, if_neg hc] at h
      rw [List.cons_append, List.dropWhile_cons, if_neg hc]
      injection h with h1 h2
      subst h1
      subst h2
      rfl

theorem dropWhile_prefix_of (p : Char → Bool) :
    ∀ l : Str, ∃ u, l = u ++ l.dropWhile p := by
  intro l
  induction l with
  | nil => exact ⟨[], rfl⟩
  | cons c t ih =>
    by_cases hc : p c = true
    · obtain ⟨u, hu⟩ := ih
      exact ⟨c :: u, by simp [List.dropWhile, hc]; exact hu⟩
    · exact ⟨[], by simp [List.dropWhile, hc]⟩

theorem pyRstripSlashes_append (a path : Str) (c : Char) (t : Str)
    (hrev : a.reverse = c :: t) (hc : (c == '/') = false) :
    pyRstripSlashes (a ++ path) = a ++ pyRstripSlashes path := by
  unfold pyRstripSlashes
  rw [List.reverse_append]
  cases hD : path.reverse.dropWhile (fun c => c == '/') with
  | nil =>
    rw [dropWhile_append_nil _ _ _ hD]
    rw [hrev, List.dropWhile_cons, if_neg (by simp [hc]), ← hrev, List.reverse_reverse]
    simp
  | cons d u =>
    rw [dropWhile_append_cons _ _ _ _ _ hD]
    simp [List.reverse_cons, List.reverse_append]

theorem pyRstripSlashes_slash_head (q : Str) :
    pyRstripSlashes ('/' :: q) = [] ∨ ∃ q2, pyRstripSlashes ('/' :: q) = '/' :: q2 := by
  cases hE : pyRstripSlashes ('/' :: q) with
  | nil => left; rfl
  | cons c cs =>
    right
    obtain ⟨u, hu⟩ := dropWhile_prefix_of (fun c => c == '/') (('/' :: q).reverse)
    have hinp : '/' :: q = pyRstripSlashes ('/' :: q) ++ u.reverse := by
      unfold pyRstripSlashes
      conv_lhs => rw [← List.reverse_reverse ('/' :: q), hu]
      rw [List.reverse_append]
    rw [hE, List.cons_append] at hinp
    injection hinp with i1 i2
    refine ⟨cs, ?_⟩
    exact congrArg (fun x => x :: cs) i1.symm

/-- C10. The scrape and crawl submission endpoints are formed by joining the
configured base address with the absolute paths /v1/scrape and /v1/crawl, so
any path component of the base address is discarded; trailing slashes on the
base are stripped at construction. -/
theorem endpoints_discard_base_path (urls : List Str) (api_key base pre host path : Str)
    (mode : ExtractUrlMode) (L : FireCrawlLoader)
    (hinit : FireCrawlLoader.init urls api_key base mode = Except.ok L)
    (hbase : base = pre ++ (host ++ path))
    (hpre : pre = ("http://".data) ∨ pre = ("https://".data))
    (hhost : host ≠ [])
    (hchars : ∀ c ∈ host, (c == '/' || c == '?' || c == '#') = false)
    (hpath : path = [] ∨ ∃ q, path = '/' :: q) :
    L.api_url = pyRstripSlashes base ∧
    scrapeEndpoint L = pre ++ (host ++ ("/v1/scrape".data)) ∧
    crawlEndpoint L = pre ++ (host ++ ("/v1/crawl".data)) := by
  have hLapi : L.api_url = pyRstripSlashes base := by
    unfold FireCrawlLoader.init at hinit
    by_cases h1 : urls.isEmpty
    · simp [h1] at hinit
    · rw [if_neg (by simp [h1])] at hinit
      by_cases h2 : api_key.isEmpty
      · simp [h1, h2] at hinit
      · rw [if_neg (by simp [h2])] at hinit
        have hL := Except.ok.inj hinit
        rw [← hL]
  have hhostrev : ∃ c t, host.reverse = c :: t ∧ (c == '/') = false := by
    cases hh : host.reverse with
    | nil =>
      exact absurd (by simpa using hh) hhost
    | cons c t =>
      refine ⟨c, t, rfl, ?_⟩
      have hcmem : c ∈ host := by
        have hm : c ∈ host.reverse := by rw [hh]; simp
        simpa using hm
      have h3 := hchars c hcmem
      simp at h3
      simpa using h3.1.1
  obtain ⟨c, t, hrev, hc⟩ := hhostrev
  have hArev : (pre ++ host).reverse = c :: (t ++ pre.reverse) := by
    rw [List.reverse_append, hrev, List.cons_append]
  have hsplit : pyRstripSlashes base = (pre ++ host) ++ pyRstripSlashes path := by
    rw [hbase, ← List.append_assoc]
    exact pyRstripSlashes_append (pre ++ host) path c (t ++ pre.reverse) hArev hc
  have hpath2 : pyRstripSlashes path = [] ∨ ∃ q2, pyRstripSlashes path = '/' :: q2 := by
    rcases hpath with h | ⟨q, hq⟩
    · left
      rw [h]
      rfl
    · rw [hq]
      exact pyRstripSlashes_slash_head q
  have htw : (host ++ pyRstripSlashes path).takeWhile
      (fun c => !(c == '/' || c == '?' || c == '#')) = host := by
    rw [takeWhile_all_append _ _ _ (fun c2 hc2 => by simp [hchars c2 hc2])]
    rcases hpath2 with h | ⟨q2, hq2⟩
    · rw [h]
      simp
    · rw [hq2, List.takeWhile_cons, if_neg (by simp)]
      simp
  have hjoin : ∀ ref : Str, urljoinAbs (pyRstripSlashes base) ref = pre ++ (host ++ ref) := by
    intro ref
    rw [hsplit]
    rcases hpre with hp | hp
    · rw [hp]
      unfold urljoinAbs
      rw [List.append_assoc, splitOnce_http]
      show ("http".data) ++ ("://".data) ++
          ((host ++ pyRstripSlashes path).takeWhile
            (fun c => !(c == '/' || c == '?' || c == '#'))) ++ ref =
        ("http://".data) ++ (host ++ ref)
      rw [htw]
      rfl
    · rw [hp]
      unfold urljoinAbs
      rw [List.append_assoc, splitOnce_https]
      show ("https".data) ++ ("://".data) ++
          ((host ++ pyRstripSlashes path).takeWhile
            (fun c => !(c == '/' || c == '?' || c == '#'))) ++ ref =
        ("https://".data) ++ (host ++ ref)
      rw [htw]
      rfl
  refine ⟨hLapi, ?_, ?_⟩
  · unfold scrapeEndpoint
    rw [hLapi]
    exact hjoin _
  · unfold crawlEndpoint
    rw [hLapi]
    exact hjoin _

/-- Witness for C10 at the base address http with a path component /api. -/
theorem endpoints_discard_base_path_witness :
    scrapeEndpoint ⟨("k".data), ("http://host/api".data), [("u".data)],
        ExtractUrlMode.SCRAPE⟩ =
      ("http://".data) ++ (("host".data) ++ ("/v1/scrape".data)) :=
  (endpoints_discard_base_path [("u".data)] ("k".data) ("http://host/api".data)
    ("http://".data) ("host".data) ("/api".data) ExtractUrlMode.SCRAPE
    ⟨("k".data), ("http://host/api".data), [("u".data)], ExtractUrlMode.SCRAPE⟩
    rfl (by decide) (Or.inl rfl) (by decide) (by decide)
    (Or.inr ⟨("api".data), by decide⟩)).2.1

/-- Counterexample for C3: in crawl mode an extra metadata field with a
complex (object) value is merged verbatim, not converted to a string. -/
theorem metadata_merge_cex :
    ((collectResultsSync ("j1".data) [⟨some ("A".data), none, some ("s".data),
        some [(("foo".data), JVal.obj [])]⟩] ("u".data)).map
      (fun d => dictGet d.metadata ("firecrawl_foo".data)) = [some (JVal.obj [])]) ∧
    isStrV (JVal.obj []) = false := ⟨rfl, rfl⟩

theorem scrapeMetaStep_write (md : List (Str × JVal)) (k : Str) (v : JVal)
    (hk : (k == ("title".data) || k == ("description".data)) = false)
    (hv : isNullV v = false) :
    scrapeMetaStep md (k, v) = dictSet md (("firecrawl_".data) ++ k) (JVal.s (pyStr v)) := by
  unfold scrapeMetaStep
  rw [if_pos (by simp [hk, hv])]
  exact ite_self _

theorem scrape_fold_preserve (fm : List (Str × JVal)) :
    ∀ (md : List (Str × JVal)) (pk : Str),
      (∀ kv ∈ fm, ("firecrawl_".data) ++ kv.1 ≠ pk) →
      dictGet (fm.foldl scrapeMetaStep md) pk = dictGet md pk := by
  induction fm with
  | nil => intro md pk _; rfl
  | cons kv rest ih =>
    intro md pk h
    rw [List.foldl_cons]
    rw [ih _ pk (fun kv2 h2 => h kv2 (List.mem_cons_of_mem _ h2))]
    unfold scrapeMetaStep
    split
    · split
      · exact dictGet_set_ne md _ pk _ (fun hh => (h kv (by simp)) hh.symm)
      · exact dictGet_set_ne md _ pk _ (fun hh => (h kv (by simp)) hh.symm)
    · rfl

theorem scrape_fold_get (fm : List (Str × JVal)) :
    ∀ (md : List (Str × JVal)) (k : Str) (v : JVal),
      (fm.map Prod.fst).Nodup → (k, v) ∈ fm →
      (k == ("title".data) || k == ("description".data)) = false →
      isNullV v = false →
      dictGet (fm.foldl scrapeMetaStep md) (("firecrawl_".data) ++ k) =
        some (JVal.s (pyStr v)) := by
  induction fm with
  | nil =>
    intro md k v _ hmem _ _
    simp at hmem
  | cons kv rest ih =>
    intro md k v hnd hmem hk hv
    rw [List.foldl_cons]
    rcases List.mem_cons.mp hmem with heq | hmem2
    · have hkeys : kv.1 ∉ rest.map Prod.fst := (List.nodup_cons.mp hnd).1
      have hne : ∀ kv2 ∈ rest, ("firecrawl_".data) ++ kv2.1 ≠ ("firecrawl_".data) ++ k := by
        intro kv2 h2 heq2
        have hk2 : kv2.1 = k := List.append_cancel_left heq2
        apply hkeys
        rw [← heq]
        show k ∈ rest.map Prod.fst
        rw [← hk2]
        exact List.mem_map_of_mem Prod.fst h2
      rw [scrape_fold_preserve rest _ _ hne]
      rw [← heq, scrapeMetaStep_write md k v hk hv]
      exact dictGet_set_self md _ _
    · exact ih (scrapeMetaStep md kv) k v (List.nodup_cons.mp hnd).2 hmem2 hk hv

theorem crawlMetaStep_keys (md : List (Str × JVal)) (kv : Str × JVal) (k2 : Str)
    (h : dictContains (crawlMetaStep md kv) k2 = true) :
    dictContains md k2 = true ∨ k2 = ("firecrawl_".data) ++ kv.1 := by
  unfold crawlMetaStep at h
  split at h
  · exact dictContains_set_imp md _ _ k2 h
  · exact Or.inl h

theorem crawl_fold_preserve (fm : List (Str × JVal)) :
    ∀ (md : List (Str × JVal)) (pk : Str),
      (∀ kv ∈ fm, ("firecrawl_".data) ++ kv.1 ≠ pk) →
      dictGet (fm.foldl crawlMetaStep md) pk = dictGet md pk := by
  induction fm with
  | nil => intro md pk _; rfl
  | cons kv rest ih =>
    intro md pk h
    rw [List.foldl_cons]
    rw [ih _ pk (fun kv2 h2 => h kv2 (List.mem_cons_of_mem _ h2))]
    unfold crawlMetaStep
    split
    · exact dictGet_set_ne md _ pk _ (fun hh => (h kv (by simp)) hh.symm)
    · rfl

theorem crawl_fold_get (fm : List (Str × JVal)) :
    ∀ (md : List (Str × JVal)) (k : Str) (v : JVal),
      (fm.map Prod.fst).Nodup → (k, v) ∈ fm →
      (∀ k2, dictContains md k2 = true →
        k2 ∈ crawlBaseKeys ∨ strStarts k2 ("firecrawl_".data) = true) →
      (k ∈ crawlBaseKeys → False) →
      strStarts k ("firecrawl_".data) = false →
      dictGet (fm.foldl crawlMetaStep md) (("firecrawl_".data) ++ k) = some v := by
  induction fm with
  | nil =>
    intro md k v _ hmem _ _ _
    simp at hmem
  | cons kv rest ih =>
    intro md k v hnd hmem hgood hkb hkp
    rw [List.foldl_cons]
    rcases List.mem_cons.mp hmem with heq | hmem2
    · have hnc : dictContains md k = false := by
        cases hcc : dictContains md k with
        | false => rfl
        | true =>
          rcases hgood k hcc with h | h
          · exact absurd h hkb
          · rw [hkp] at h
            cases h
      have hstep : crawlMetaStep md (k, v) = dictSet md (("firecrawl_".data) ++ k) v := by
        unfold crawlMetaStep
        rw [if_pos hnc]
      have hne : ∀ kv2 ∈ rest, ("firecrawl_".data) ++ kv2.1 ≠ ("firecrawl_".data) ++ k := by
        intro kv2 h2 heq2
        have hk2 : kv2.1 = k := List.append_cancel_left heq2
        apply (List.nodup_cons.mp hnd).1
        rw [← heq]
        show k ∈ rest.map Prod.fst
        rw [← hk2]
        exact List.mem_map_of_mem Prod.fst h2
      rw [crawl_fold_preserve rest _ _ hne]
      rw [← heq, hstep]
      exact dictGet_set_self md _ _
    · have hgood2 : ∀ k2, dictContains (crawlMetaStep md kv) k2 = true →
          k2 ∈ crawlBaseKeys ∨ strStarts k2 ("firecrawl_".data) = true := by
        intro k2 hk2
        rcases crawlMetaStep_keys md kv k2 hk2 with h | h
        · exact hgood k2 h
        · right
          rw [h]
          exact strStarts_append _ _
      exact ih (crawlMetaStep md kv) k v (List.nodup_cons.mp hnd).2 hmem2 hgood2 hkb hkp

theorem keys7_good (v1 v2 v3 v4 v5 v6 v7 : JVal) :
    ∀ k2, dictContains [(("source".data), v1), (("title".data), v2),
        (("description".data), v3), (("url".data), v4), (("firecrawl_mode".data), v5),
        (("job_id".data), v6), (("original_url".data), v7)] k2 = true →
      k2 ∈ crawlBaseKeys ∨ strStarts k2 ("firecrawl_".data) = true := by
  intro k2 h
  left
  simp [dictContains] at h
  rcases h with h | h | h | h | h | h | h <;>
    (rw [← h]; simp [crawlBaseKeys])


/-- C3 (amended). Extra service-reported metadata fields are merged into the
document metadata under the firecrawl_ prefix in both modes, but the two
modes differ: in scrape mode, fields beyond title and description with
non-null values are merged with the value stringified; in crawl mode, fields
whose names do not collide with an existing metadata key are merged with the
value unmodified, so complex values are not converted to strings there. -/
theorem metadata_merge_amended :
    (∀ (url : Str) (resp : ScrapeResponse) (fm : List (Str × JVal)) (k : Str) (v : JVal),
      resp.success = true → pyStrip (scrapeContent resp) ≠ [] →
      resp.data.metadata = some fm → (fm.map Prod.fst).Nodup →
      (k, v) ∈ fm → (k == ("title".data) || k == ("description".data)) = false →
      isNullV v = false →
      ∃ d, scrapeUrl url resp = Except.ok [d] ∧
        dictGet d.metadata (("firecrawl_".data) ++ k) = some (JVal.s (pyStr v))) ∧
    (∀ (firecrawl_job_id original_url : Str) (item : PageItem)
        (fm : List (Str × JVal)) (k : Str) (v : JVal) (rest : List PageItem),
      item.metadata = some fm →
      item.markdown.getD (item.content.getD []) ≠ [] →
      (fm.map Prod.fst).Nodup → (k, v) ∈ fm →
      (k ∈ crawlBaseKeys → False) → strStarts k ("firecrawl_".data) = false →
      ∃ d, collectLoop firecrawl_job_id original_url (item :: rest) =
          d :: collectLoop firecrawl_job_id original_url rest ∧
        dictGet d.metadata (("firecrawl_".data) ++ k) = some v) := by
  constructor
  · intro url resp fm k v hs hstrip hmeta hnd hmem hk hv
    have hcond : ¬((scrapeContent resp).isEmpty ||
        (pyStrip (scrapeContent resp)).isEmpty) = true := by
      simp
      refine ⟨fun h => hstrip ?_, hstrip⟩
      rw [h]
      rfl
    unfold scrapeUrl
    rw [if_neg (by simp [hs])]
    rw [if_neg hcond]
    rw [hmeta]
    refine ⟨_, rfl, ?_⟩
    exact scrape_fold_get fm _ k v hnd hmem hk hv
  · intro jid ourl item fm k v rest hmeta hcont hnd hmem hkb hkp
    have hie : (item.markdown.getD (item.content.getD [])).isEmpty = false := by
      cases hx : (item.markdown.getD (item.content.getD [])).isEmpty with
      | false => rfl
      | true => exact absurd (List.isEmpty_iff.mp hx) hcont
    refine ⟨⟨item.markdown.getD (item.content.getD []),
      crawlPageMetadata jid ourl (item.sourceURL.getD ourl) item.metadata⟩, ?_, ?_⟩
    · simp [collectLoop, hie]
    · unfold crawlPageMetadata
      rw [hmeta]
      exact crawl_fold_get fm _ k v hnd hmem (keys7_good _ _ _ _ _ _ _) hkb hkp

/-- Witness for C3 (amended) at concrete inputs: a scrape-mode extra field
with integer value 7 is merged stringified, a crawl-mode extra field with an
object value is merged verbatim. -/
theorem metadata_merge_amended_witness :
    ((okDocs (scrapeUrl ("u".data)
        ⟨true, none, ⟨some ("A".data), none, some [(("foo".data), JVal.i 7)]⟩⟩)).map
      (fun d => dictGet d.metadata (("firecrawl_".data) ++ ("foo".data))) =
      [some (JVal.s (pyStr (JVal.i 7)))]) ∧
    ((collectLoop ("j1".data) ("u".data) [⟨some ("A".data), none, none,
        some [(("bar".data), JVal.obj [])]⟩]).map
      (fun d => dictGet d.metadata (("firecrawl_".data) ++ ("bar".data))) =
      [some (JVal.obj [])]) := by
  constructor
  · obtain ⟨d, h1, h2⟩ := metadata_merge_amended.1 ("u".data)
      ⟨true, none, ⟨some ("A".data), none, some [(("foo".data), JVal.i 7)]⟩⟩
      [(("foo".data), JVal.i 7)] ("foo".data) (JVal.i 7)
      rfl (by decide) rfl (by simp) (List.mem_singleton.mpr rfl) rfl rfl
    rw [h1]
    simp [okDocs]
    exact h2
  · obtain ⟨d, h1, h2⟩ := metadata_merge_amended.2 ("j1".data) ("u".data)
      ⟨some ("A".data), none, none, some [(("bar".data), JVal.obj [])]⟩
      [(("bar".data), JVal.obj [])] ("bar".data) (JVal.obj []) []
      rfl (by decide) (by simp) (List.mem_singleton.mpr rfl) (by decide) rfl
    rw [h1]
    simp [collectLoop]
    exact h2
